import Mathlib

/-!
Shallow embedding of the YouTube-Video-Downloader repository
(`src/youtube_downloader/utils.py`, `downloader.py`, `main.py`) and proofs
about it.  Strings are modelled as `List Char`; Python exceptions as an
explicit error type; the pytube backing library (an external collaborator,
not part of this repository) is modelled from the spec where its behaviour
decides a claim.
-/

namespace YTSpec

/-- Characters removed by Python's argumentless `str.strip()` (the Unicode
whitespace code points recognised by `str.isspace`). -/
def pyIsSpace (c : Char) : Bool :=
  decide (c.toNat = 32 ∨ (9 ≤ c.toNat ∧ c.toNat ≤ 13)
    ∨ (28 ≤ c.toNat ∧ c.toNat ≤ 31) ∨ c.toNat = 133 ∨ c.toNat = 160
    ∨ c.toNat = 5760 ∨ (8192 ≤ c.toNat ∧ c.toNat ≤ 8202) ∨ c.toNat = 8232
    ∨ c.toNat = 8233 ∨ c.toNat = 8239 ∨ c.toNat = 8287 ∨ c.toNat = 12288)

/-- The character class `[A-Za-z0-9_\-]` of `_YT_URL_RE` (utils.py line 29). -/
def idChar (c : Char) : Bool :=
  c.isAlpha || c.isDigit || c == '_' || c == '-'

/-- The allowed set of `sanitize_filename` (utils.py line 45):
`"-_.() " + string.ascii_letters + string.digits`. -/
def allowedChar (c : Char) : Bool :=
  c.isAlpha || c.isDigit || (['-', '_', '.', '(', ')', ' '] : List Char).contains c

/-- The strip set of `.strip(" ._")` (utils.py line 46). -/
def sepChar (c : Char) : Bool :=
  ([' ', '.', '_'] : List Char).contains c

/-- Python `str.lstrip` restricted to a character predicate. -/
def lstripWith (p : Char → Bool) (l : List Char) : List Char :=
  l.dropWhile p

/-- Python `str.rstrip` restricted to a character predicate (drop the
longest all-`p` suffix, i.e. `List.rdropWhile`). -/
def rstripWith (p : Char → Bool) (l : List Char) : List Char :=
  l.rdropWhile p

/-- Python `str.strip` restricted to a character predicate. -/
def stripWith (p : Char → Bool) (l : List Char) : List Char :=
  rstripWith p (lstripWith p l)

/-- Python `url.strip()` (utils.py line 39, downloader.py line 48). -/
def pyStrip (l : List Char) : List Char :=
  stripWith pyIsSpace l

/-- The character-replacement step of `sanitize_filename`:
`"".join(c if c in allowed else "_" for c in name)` (utils.py line 46). -/
def sanMap (name : List Char) : List Char :=
  name.map (fun c => if allowedChar c then c else '_')

/-- `"".join(...).strip(" ._")` — the `cleaned` value of utils.py line 46. -/
def cleanChars (name : List Char) : List Char :=
  stripWith sepChar (sanMap name)

/-- `sanitize_filename` (utils.py lines 43-49). -/
def sanitize_filename (name : List Char) (max_len : Nat := 180) : List Char :=
  let cleaned := cleanChars name
  let cleaned := if max_len < cleaned.length
    then cleaned.take (max_len - 3) ++ "...".data else cleaned
  if cleaned = [] then "video".data else cleaned

/-- Literal-prefix test (the matching of a fixed regex literal against the
head of the input). -/
def isPre : List Char → List Char → Bool
  | [], _ => true
  | a :: as, l =>
    match l with
    | [] => false
    | b :: bs => a == b && isPre as bs

/-- The optional scheme group `(?:https?://)?` of `_YT_URL_RE`: the regex
engine consumes `https://` or `http://` when present, else nothing. -/
def consumeScheme (l : List Char) : List Char :=
  if isPre "https://".data l then l.drop 8
  else if isPre "http://".data l then l.drop 7
  else l

/-- An optional literal group such as `(?:www\.)?`: consumed when present. -/
def consumeOpt (pre : List Char) (l : List Char) : List Char :=
  if isPre pre l then l.drop pre.length else l

/-- The host alternation and video-id tail of `_YT_URL_RE`:
`(?:youtube\.com/watch\?v=|youtu\.be/)[A-Za-z0-9_\-]{6,}`. -/
def afterWww (l : List Char) : Bool :=
  if isPre "youtube.com/watch?v=".data l then
    decide (6 ≤ ((l.drop 20).takeWhile idChar).length)
  else if isPre "youtu.be/".data l then
    decide (6 ≤ ((l.drop 9).takeWhile idChar).length)
  else false

/-- `_YT_URL_RE.match` (utils.py lines 24-32): anchored at the start of the
string only; arbitrary content may follow the matched prefix. -/
def matchCore (l : List Char) : Bool :=
  afterWww (consumeOpt "www.".data (consumeScheme l))

/-- `is_probable_youtube_url` (utils.py lines 35-40) on string input:
strip, then regex match. -/
def is_probable_youtube_url (url : List Char) : Bool :=
  matchCore (pyStrip url)

/-- A Python value passed to `is_probable_youtube_url`: a string, or
anything that is not a string (rejected by the `isinstance` guard). -/
inductive PyValue where
  | ofStr (s : List Char)
  | notAStr
deriving DecidableEq

/-- `is_probable_youtube_url` including the `isinstance(url, str)` guard
(utils.py lines 37-38). -/
def is_probable_youtube_url_py : PyValue → Bool
  | .ofStr s => is_probable_youtube_url s
  | .notAStr => false

/-- The accepted host/path shape described by the spec (§4.1 and §8): after
whitespace-stripping, an optional scheme, optional `www.`, an allow-listed
host form (`youtube.com/watch?v=` or `youtu.be/`), then a video id of at
least 6 characters from `[A-Za-z0-9_\-]`, followed by arbitrary content. -/
def urlShape (l : List Char) : Prop :=
  ∃ sch www host idp rest : List Char,
    sch ∈ [([] : List Char), "http://".data, "https://".data] ∧
    www ∈ [([] : List Char), "www.".data] ∧
    host ∈ ["youtube.com/watch?v=".data, "youtu.be/".data] ∧
    (∀ c ∈ idp, idChar c = true) ∧ 6 ≤ idp.length ∧
    l = sch ++ (www ++ (host ++ (idp ++ rest)))

/-! ## downloader.py / main.py embedding -/

/-- Stream kind, per the spec's data model (§3): enum {Video, Audio}.  The
source tags streams with the strings `"video"` / `"audio"`. -/
inductive StreamKind where
  | video
  | audio
deriving DecidableEq

/-- A raw stream record of the backing capability.  Modelled from the spec:
§6 — the backing library supplies records exposing an identifier (`itag`),
kind, container type, a quality metric (resolution or bitrate), a
progressive/adaptive flag and optional size; `defaultName` is the
library-chosen filename its download operation would use. -/
structure RawStream where
  itag : Nat
  kind : StreamKind
  mime : Option (List Char)
  resolution : Option (List Char)
  abr : Option (List Char)
  is_progressive : Bool
  filesize : Option Nat
  defaultName : List Char
deriving DecidableEq

/-- Result of a successful resolution by the backing capability.  Modelled
from the spec: §6 — given a URL the collaborator supplies a title and the
raw stream records. -/
structure YouTubeData where
  title : List Char
  streams : List RawStream
deriving DecidableEq

/-- The `StreamInfo` dataclass (downloader.py lines 28-37). -/
structure StreamInfo where
  itag : Nat
  type : List Char
  mime_type : List Char
  resolution_or_abr : List Char
  progressive : Bool
  filesize : Option Nat
  pretty : List Char
deriving DecidableEq

/-- The `YouTubeDownloader` state (downloader.py lines 42-50): the stripped
URL and the optional loaded `YouTube` object. -/
structure Downloader where
  url : List Char
  yt : Option YouTubeData
deriving DecidableEq

/-- `YouTubeDownloader.__init__` (downloader.py line 48): `self.url =
url.strip()`, no loaded object yet. -/
def mkDownloader (url : List Char) : Downloader :=
  { url := pyStrip url, yt := none }

/-- An I/O action issued to the backing capability: metadata resolution
(the `YouTube(...)` constructor) or a stream transfer (`stream.download`). -/
inductive CapCall where
  | resolve (url : List Char)
  | fetch (itag : Nat) (output_dir : List Char) (fnamePfx : List Char)
deriving DecidableEq

/-- A raised Python exception: `RuntimeError` or `ValueError` with its
message. -/
inductive PyErr where
  | runtimeError (msg : List Char)
  | valueError (msg : List Char)
deriving DecidableEq

/-- Python truthiness-based `x or default` for optional strings (`None` and
`""` are falsy). -/
def pyOr (v : Option (List Char)) (d : List Char) : List Char :=
  match v with
  | none => d
  | some x => if x = [] then d else x

/-- Python f-string interpolation of an optional string: `None` prints as
`"None"`. -/
def pyStr (v : Option (List Char)) : List Char :=
  match v with
  | none => "None".data
  | some x => x

/-- `YouTubeDownloader.load` (downloader.py lines 62-73): constructs the
`YouTube` object (always attempting resolution — the second component lists
the capability calls issued) and wraps any failure in a `RuntimeError`.
No URL validation is performed here. -/
def load (d : Downloader) (resolved : Except (List Char) YouTubeData) :
    Except PyErr Downloader × List CapCall :=
  (match resolved with
    | .error msg =>
      .error (.runtimeError ("Failed to initialize YouTube object: ".data ++ msg))
    | .ok yt => .ok { d with yt := some yt },
   [CapCall.resolve d.url])

/-- The digis-then-int key pytube compares quality strings by; also the
numeric reading of a descriptor's quality label ("1080p" ↦ 1080, "N/A" ↦
unknown). -/
def numOf (l : List Char) : Option Nat :=
  let ds := l.filter Char.isDigit
  if ds = [] then none
  else some (ds.foldl (fun n c => n * 10 + (c.toNat - 48)) 0)

/-- Resolution sort key of a raw video stream. -/
def vKey (s : RawStream) : Option Nat :=
  match s.resolution with
  | none => none
  | some r => numOf r

/-- Bitrate sort key of a raw audio stream. -/
def aKey (s : RawStream) : Option Nat :=
  match s.abr with
  | none => none
  | some r => numOf r

/-- Descending quality order on optional numeric keys: larger values first,
unknown values last (unknowns tie with each other). -/
def keyGE (a b : Option Nat) : Prop :=
  match a, b with
  | some x, some y => y ≤ x
  | some _, none => True
  | none, some _ => False
  | none, none => True

instance : (a b : Option Nat) → Decidable (keyGE a b)
  | some x, some y => inferInstanceAs (Decidable (y ≤ x))
  | some _, none => inferInstanceAs (Decidable True)
  | none, some _ => inferInstanceAs (Decidable False)
  | none, none => inferInstanceAs (Decidable True)

/-- Modelled from the spec: pytube's `StreamQuery.order_by(...).desc()`
(external-library code, not part of this repository), per §4.3 a stable
sort by the quality metric, numerically descending with unknown metrics
last and ties preserving the backing capability's order. -/
def sortByKey (key : RawStream → Option Nat) (l : List RawStream) : List RawStream :=
  List.insertionSort (fun a b => keyGE (key a) (key b)) l

/-- Modelled from the spec: pytube's `streams.filter(type="video")` —
the video-kind records, in capability order. -/
def videoStreams (yt : YouTubeData) : List RawStream :=
  yt.streams.filter (fun s => decide (s.kind = .video))

/-- Modelled from the spec: pytube's `streams.filter(only_audio=True)` —
the audio-kind records, in capability order. -/
def audioStreams (yt : YouTubeData) : List RawStream :=
  yt.streams.filter (fun s => decide (s.kind = .audio))

/-- The video `StreamInfo` built by `available_streams` (downloader.py
lines 89-102): fields use the falsy-defaults `res` / `s.mime_type or
"video/mp4"`, while `pretty` interpolates the raw `s.mime_type`. -/
def mkVideoInfo (s : RawStream) : StreamInfo :=
  let res := pyOr s.resolution "N/A".data
  { itag := s.itag
    type := "video".data
    mime_type := pyOr s.mime "video/mp4".data
    resolution_or_abr := res
    progressive := s.is_progressive
    filesize := s.filesize
    pretty := "VIDEO | ".data ++ res ++ " | ".data
      ++ (if s.is_progressive then "progressive".data else "adaptive".data)
      ++ " | ".data ++ pyStr s.mime }

/-- The audio `StreamInfo` built by `available_streams` (downloader.py
lines 105-117). -/
def mkAudioInfo (s : RawStream) : StreamInfo :=
  let abr := pyOr s.abr "N/A".data
  { itag := s.itag
    type := "audio".data
    mime_type := pyOr s.mime "audio/mp4".data
    resolution_or_abr := abr
    progressive := false
    filesize := s.filesize
    pretty := "AUDIO | ".data ++ abr ++ " | ".data ++ pyStr s.mime }

/-- The catalog built from a loaded `YouTube` object: sorted video
descriptors followed by sorted audio descriptors (downloader.py lines
86-119). -/
def catalogOf (yt : YouTubeData) : List StreamInfo :=
  (sortByKey vKey (videoStreams yt)).map mkVideoInfo
    ++ (sortByKey aKey (audioStreams yt)).map mkAudioInfo

/-- The `RuntimeError` message of downloader.py lines 78 and 84 and 128. -/
def notLoadedMsg : List Char :=
  "YouTube object not loaded. Call load() first.".data

/-- `YouTubeDownloader.available_streams` (downloader.py lines 81-119). -/
def available_streams (d : Downloader) : Except PyErr (List StreamInfo) :=
  match d.yt with
  | none => .error (.runtimeError notLoadedMsg)
  | some yt => .ok (catalogOf yt)

/-- Modelled from the spec: pytube's `streams.get_by_itag` — per §3 the id
is "used to request this exact stream": the first record with a matching
identifier, if any. -/
def get_by_itag (streams : List RawStream) (itag : Nat) : Option RawStream :=
  streams.find? (fun s => s.itag == itag)

/-- The `ValueError` message of downloader.py line 132. -/
def unknownStreamMsg (itag : Nat) : List Char :=
  "No stream found for itag=".data ++ (Nat.repr itag).data

/-- Modelled from the spec: §6 — the backing library's
`stream.download(output_path=..., filename_prefix=...)` writes and returns
`output_path/<filename_prefix><library-chosen name>`. -/
def capDownloadPath (s : RawStream) (output_dir fnamePfx : List Char) : List Char :=
  output_dir ++ "/".data ++ fnamePfx ++ s.defaultName

/-- `YouTubeDownloader.download` (downloader.py lines 121-143).  Note the
source computes `safe_title = sanitize_filename(self._yt.title)` and then
never uses it: `stream.download` receives only `output_path` and
`filename_prefix=""`.  The second component lists the capability calls
issued (the only I/O the source performs here). -/
def download (d : Downloader) (itag : Nat) (output_dir : List Char) :
    Except PyErr (List Char) × List CapCall :=
  match d.yt with
  | none => (.error (.runtimeError notLoadedMsg), [])
  | some yt =>
    match get_by_itag yt.streams itag with
    | none => (.error (.valueError (unknownStreamMsg itag)), [])
    | some s =>
      let _safe_title := sanitize_filename yt.title
      (.ok (capDownloadPath s output_dir []),
       [CapCall.fetch itag output_dir []])

/-- `YouTubeDownloader._pytube_progress` (downloader.py lines 52-56):
`total = stream.filesize or 0`, `received = max(total - bytes_remaining,
0)`; the forwarded event is `(received, total)`. -/
def pytube_progress_event (filesize : Option Int) (bytes_remaining : Int) :
    Int × Int :=
  let total : Int := filesize.getD 0
  let received : Int := max (total - bytes_remaining) 0
  (received, total)

/-- The percentage computed by `App.on_progress` (main.py line 178):
`0 if total_bytes <= 0 else int((bytes_received / total_bytes) * 100)`
(float truncation modelled as integer division; the claims only concern the
`total_bytes <= 0` guard). -/
def on_progress_percent (bytes_received total_bytes : Int) : Int :=
  if total_bytes ≤ 0 then 0 else bytes_received * 100 / total_bytes

/-- The message of a raised error, as shown by the GUI (`str(ex)`). -/
def errText : PyErr → List Char
  | .runtimeError m => m
  | .valueError m => m

/-- The URL-fetch flow of `App.on_fetch_streams` (main.py lines 107-132):
strip the entry text, reject syntactically invalid URLs before constructing
any downloader, otherwise construct, load and list streams. -/
def on_fetch_streams (url_input : List Char)
    (resolved : Except (List Char) YouTubeData) :
    Except (List Char) (List StreamInfo) × List CapCall :=
  let url := pyStrip url_input
  if is_probable_youtube_url url = false then
    (.error "Please paste a valid YouTube video URL.".data, [])
  else
    match load (mkDownloader url) resolved with
    | (.error e, calls) => (.error (errText e), calls)
    | (.ok d, calls) =>
      match available_streams d with
      | .error e => (.error (errText e), calls)
      | .ok infos => (.ok infos, calls)

/-- Numeric reading of a descriptor's displayed quality label. -/
def labelKey (i : StreamInfo) : Option Nat :=
  numOf i.resolution_or_abr

/-- Agreement of two descriptors on every `StreamInfo` field other than
`pretty` (the display label). -/
def fieldsEq (a b : StreamInfo) : Prop :=
  a.itag = b.itag ∧ a.type = b.type ∧ a.mime_type = b.mime_type
    ∧ a.resolution_or_abr = b.resolution_or_abr ∧ a.progressive = b.progressive
    ∧ a.filesize = b.filesize

instance (a b : StreamInfo) : Decidable (fieldsEq a b) :=
  inferInstanceAs (Decidable (a.itag = b.itag ∧ a.type = b.type
    ∧ a.mime_type = b.mime_type ∧ a.resolution_or_abr = b.resolution_or_abr
    ∧ a.progressive = b.progressive ∧ a.filesize = b.filesize))

instance {ε α : Type} [DecidableEq ε] [DecidableEq α] : DecidableEq (Except ε α)
  | .error e, .error f =>
    if h : e = f then .isTrue (by rw [h]) else .isFalse (by intro hh; cases hh; exact h rfl)
  | .error _, .ok _ => .isFalse (by intro hh; cases hh)
  | .ok _, .error _ => .isFalse (by intro hh; cases hh)
  | .ok a, .ok b =>
    if h : a = b then .isTrue (by rw [h]) else .isFalse (by intro hh; cases hh; exact h rfl)

/-! ## Concrete backing-capability stubs used as witnesses -/

/-- The spec's §8 stub: title "Demo", one 720p progressive video stream
(id 1) and one 128kbps audio stream (id 2); `defaultName` per §6 is the
library-chosen filename. -/
def demoData : YouTubeData :=
  { title := "Demo".data,
    streams := [
      { itag := 1, kind := .video, mime := some "video/mp4".data,
        resolution := some "720p".data, abr := none, is_progressive := true,
        filesize := some 1000, defaultName := "stub.mp4".data },
      { itag := 2, kind := .audio, mime := some "audio/mp4".data,
        resolution := none, abr := some "128kbps".data, is_progressive := false,
        filesize := some 500, defaultName := "stub.m4a".data }] }

/-- A downloader that has successfully loaded `demoData`. -/
def demoDownloader : Downloader :=
  { url := "https://www.youtube.com/watch?v=abcdefghijk".data,
    yt := some demoData }

/-- The spec's §8 catalog-ordering stub: video resolutions
[720p, 1080p, unknown, 480p] and audio bitrates [64kbps, 128kbps]. -/
def demo4 : YouTubeData :=
  { title := "Demo4".data,
    streams := [
      { itag := 10, kind := .video, mime := some "video/mp4".data,
        resolution := some "720p".data, abr := none, is_progressive := true,
        filesize := some 1, defaultName := "a".data },
      { itag := 11, kind := .video, mime := some "video/webm".data,
        resolution := some "1080p".data, abr := none, is_progressive := false,
        filesize := some 2, defaultName := "b".data },
      { itag := 12, kind := .video, mime := some "video/mp4".data,
        resolution := none, abr := none, is_progressive := false,
        filesize := none, defaultName := "c".data },
      { itag := 13, kind := .video, mime := some "video/mp4".data,
        resolution := some "480p".data, abr := none, is_progressive := true,
        filesize := some 3, defaultName := "d".data },
      { itag := 20, kind := .audio, mime := some "audio/mp4".data,
        resolution := none, abr := some "64kbps".data, is_progressive := false,
        filesize := some 4, defaultName := "e".data },
      { itag := 21, kind := .audio, mime := some "audio/webm".data,
        resolution := none, abr := some "128kbps".data, is_progressive := false,
        filesize := some 5, defaultName := "f".data }] }

/-- A downloader that has successfully loaded `demo4`. -/
def demo4Downloader : Downloader :=
  { url := "https://www.youtube.com/watch?v=abcdefghijk".data,
    yt := some demo4 }

/-- A 720p video raw stream with a present container type. -/
def rawWithMime : RawStream :=
  { itag := 7, kind := .video, mime := some "video/mp4".data,
    resolution := some "720p".data, abr := none, is_progressive := false,
    filesize := none, defaultName := "a.mp4".data }

/-- The same record with the backing library reporting no container type. -/
def rawNoMime : RawStream := { rawWithMime with mime := none }

/-- A capability answer holding both records above. -/
def mimeNoneData : YouTubeData :=
  { title := "T".data, streams := [rawWithMime, rawNoMime] }

/-! ## C1 -/

/-- C1: the claim that `download` writes under a base name derived by the
Sanitizer from the handle's title fails on the code: `download` computes
`safe_title = sanitize_filename(self._yt.title)` and never uses it, passing
only `filename_prefix=""` to `stream.download`, so the returned path is the
library-chosen one (`./out/stub.mp4` for the §8 stub) and does not end in
the sanitized title `"Demo"`. -/
theorem download_ignores_sanitized_title :
    (download demoDownloader 1 "./out".data).1 = .ok "./out/stub.mp4".data
    ∧ demoData.title = "Demo".data
    ∧ sanitize_filename "Demo".data = "Demo".data
    ∧ "Demo".data.isSuffixOf "./out/stub.mp4".data = false
    ∧ (∀ t : List Char,
        (download { demoDownloader with yt := some { demoData with title := t } }
          1 "./out".data).1 = .ok "./out/stub.mp4".data) := by
  refine ⟨by decide, by decide, by decide, by decide, fun t => rfl⟩

/-! ## C2 counterexample -/

/-- C2 fails on the code: `"not-a-url"` does not pass the heuristic, yet
`load` does not fail with any invalid-URL error — it succeeds against a
resolving capability, and it issues the resolution I/O call for the raw
string.  The Orchestrator performs no syntactic check of its own. -/
theorem load_no_url_validation_cx :
    is_probable_youtube_url "not-a-url".data = false
    ∧ load (mkDownloader "not-a-url".data) (.ok demoData)
        = (.ok { url := "not-a-url".data, yt := some demoData },
           [CapCall.resolve "not-a-url".data]) := by decide

/-! ## C3 counterexample -/

/-- C3 fails on the code: two catalog descriptors built from raw streams
differing only in a missing raw `mime_type` agree on every stored field
(`mime_type` falls back to `"video/mp4"`), yet their `pretty` labels differ
because the f-string interpolates the raw attribute (printing `None`). -/
theorem displayLabel_not_field_determined_cx :
    catalogOf mimeNoneData = [mkVideoInfo rawWithMime, mkVideoInfo rawNoMime]
    ∧ fieldsEq (mkVideoInfo rawWithMime) (mkVideoInfo rawNoMime)
    ∧ (mkVideoInfo rawWithMime).pretty ≠ (mkVideoInfo rawNoMime).pretty := by
  decide

/-! ## C6 counterexample -/

set_option maxRecDepth 8192 in
/-- C6's truncation clause fails on the code: a 181-character name triggers
truncation, and re-applying `sanitize_filename` to the truncated result
strips the appended `"..."` (the strip set contains `.`), so the truncated
output is not a fixed point. -/
theorem sanitize_truncation_unstable_cx :
    180 < (cleanChars (List.replicate 181 'a')).length
    ∧ sanitize_filename (sanitize_filename (List.replicate 181 'a'))
        ≠ sanitize_filename (List.replicate 181 'a') := by decide

/-! ## Generic strip/clean lemmas -/

theorem dropWhile_cons_head {p : α → Bool} :
    ∀ {l : List α} {hd : α} {t : List α}, l.dropWhile p = hd :: t → p hd = false := by
  intro l
  induction l with
  | nil => intro hd t h; cases h
  | cons a l ih =>
    intro hd t h
    rw [List.dropWhile_cons] at h
    by_cases ha : p a
    · exact ih (by rwa [if_pos ha] at h)
    · rw [if_neg ha] at h
      cases h
      exact Bool.eq_false_iff.mpr ha

theorem rdropWhile_append_all {p : α → Bool} {A B : List α}
    (h : ∀ x ∈ B, p x = true) : (A ++ B).rdropWhile p = A.rdropWhile p := by
  unfold List.rdropWhile
  rw [List.reverse_append,
    List.dropWhile_append_of_pos (fun a ha => h a (List.mem_reverse.mp ha))]

theorem mem_stripWith {p : Char → Bool} {x : Char} {l : List Char}
    (h : x ∈ stripWith p l) : x ∈ l := by
  unfold stripWith rstripWith lstripWith at h
  exact (List.dropWhile_sublist p).mem ((List.rdropWhile_prefix _ _).sublist.mem h)

theorem stripWith_cons_shape {p : Char → Bool} {l hd : _} {t : List Char}
    (h : stripWith p l = hd :: t) : p hd = false := by
  obtain ⟨r, hr⟩ := List.rdropWhile_prefix p (lstripWith p l)
  unfold stripWith rstripWith at h
  rw [h] at hr
  exact dropWhile_cons_head (l := l) hr.symm

theorem dropWhile_stripWith (p : Char → Bool) (l : List Char) :
    (stripWith p l).dropWhile p = stripWith p l := by
  rcases heq : stripWith p l with _ | ⟨hd, t⟩
  · rfl
  · rw [List.dropWhile_cons, if_neg (by simp [stripWith_cons_shape heq])]

theorem stripWith_idem (p : Char → Bool) (l : List Char) :
    stripWith p (stripWith p l) = stripWith p l := by
  show rstripWith p (lstripWith p (stripWith p l)) = stripWith p l
  unfold lstripWith
  rw [dropWhile_stripWith]
  exact List.rdropWhile_idempotent p (lstripWith p l)

theorem mem_sanMap_allowed {x : Char} {name : List Char} (h : x ∈ sanMap name) :
    allowedChar x = true := by
  simp only [sanMap, List.mem_map] at h
  obtain ⟨c, -, rfl⟩ := h
  by_cases hc : allowedChar c
  · rwa [if_pos hc]
  · rw [if_neg hc]; decide

theorem mem_cleanChars_allowed {x : Char} {name : List Char}
    (h : x ∈ cleanChars name) : allowedChar x = true :=
  mem_sanMap_allowed (mem_stripWith h)

theorem sanMap_eq_self {l : List Char} (h : ∀ x ∈ l, allowedChar x = true) :
    sanMap l = l := by
  induction l with
  | nil => rfl
  | cons a t ih =>
    show (if allowedChar a then a else '_') :: sanMap t = a :: t
    rw [if_pos (h a (by simp)), ih (fun x hx => h x (by simp [hx]))]

theorem cleanChars_of_clean {l : List Char} (h : ∀ x ∈ l, allowedChar x = true) :
    cleanChars (stripWith sepChar l) = stripWith sepChar l := by
  unfold cleanChars
  rw [sanMap_eq_self (fun x hx => h x (mem_stripWith hx)), stripWith_idem]

theorem sanitize_eq_of_long {s : List Char} (h1 : 180 < (cleanChars s).length) :
    sanitize_filename s = (cleanChars s).take (180 - 3) ++ "...".data := by
  have hne : (cleanChars s).take (180 - 3) ++ "...".data ≠ [] := by simp
  simp only [sanitize_filename, if_pos h1, if_neg hne]

theorem sanitize_eq_of_short {s : List Char} (h1 : ¬ 180 < (cleanChars s).length) :
    sanitize_filename s = if cleanChars s = [] then "video".data else cleanChars s := by
  simp only [sanitize_filename, if_neg h1]

theorem mem_sanitize_allowed {x : Char} {s : List Char}
    (hx : x ∈ sanitize_filename s) :
    allowedChar x = true ∨ x ∈ "video".data := by
  by_cases h1 : 180 < (cleanChars s).length
  · rw [sanitize_eq_of_long h1] at hx
    rcases List.mem_append.mp hx with h | h
    · exact Or.inl (mem_cleanChars_allowed (List.take_subset _ _ h))
    · left
      have hdot : x = '.' := by simpa using h
      rw [hdot]; decide
  · rw [sanitize_eq_of_short h1] at hx
    split at hx
    · exact Or.inr hx
    · exact Or.inl (mem_cleanChars_allowed hx)

/-! ## C3 amended -/

/-- C3 amended: for descriptors built from raw streams with a present,
non-empty `mime_type`, the display label is determined by the other fields
(both for the video and for the audio builder). -/
theorem displayLabel_determined_with_raw_mime (s t : RawStream)
    (hs : ∃ m, s.mime = some m ∧ m ≠ []) (ht : ∃ m, t.mime = some m ∧ m ≠ []) :
    (fieldsEq (mkVideoInfo s) (mkVideoInfo t) →
      (mkVideoInfo s).pretty = (mkVideoInfo t).pretty)
    ∧ (fieldsEq (mkAudioInfo s) (mkAudioInfo t) →
      (mkAudioInfo s).pretty = (mkAudioInfo t).pretty) := by
  obtain ⟨m, hm, hmne⟩ := hs
  obtain ⟨n, hn, hnne⟩ := ht
  constructor
  · rintro ⟨-, -, hmime, hres, hprog, -⟩
    simp only [mkVideoInfo, pyOr, pyStr, hm, hn, if_neg hmne, if_neg hnne]
      at hmime hres hprog ⊢
    rw [hres, hprog, hmime]
  · rintro ⟨-, -, hmime, habr, -, -⟩
    simp only [mkAudioInfo, pyOr, pyStr, hm, hn, if_neg hmne, if_neg hnne]
      at hmime habr ⊢
    rw [habr, hmime]

/-- Witness for C3's amended theorem at a concrete record. -/
theorem displayLabel_determined_with_raw_mime_witness :
    (∃ m, rawWithMime.mime = some m ∧ m ≠ []) ∧
    ((fieldsEq (mkVideoInfo rawWithMime) (mkVideoInfo rawWithMime) →
      (mkVideoInfo rawWithMime).pretty = (mkVideoInfo rawWithMime).pretty)
    ∧ (fieldsEq (mkAudioInfo rawWithMime) (mkAudioInfo rawWithMime) →
      (mkAudioInfo rawWithMime).pretty = (mkAudioInfo rawWithMime).pretty)) :=
  ⟨⟨"video/mp4".data, rfl, by decide⟩,
   displayLabel_determined_with_raw_mime rawWithMime rawWithMime
     ⟨"video/mp4".data, rfl, by decide⟩ ⟨"video/mp4".data, rfl, by decide⟩⟩

/-! ## C8 -/

/-- C8: `sanitize_filename` never returns a string containing `/` or `\`,
and on the empty and the all-space input it returns exactly `"video"`. -/
theorem sanitize_no_separators_and_fallback :
    (∀ s : List Char, '/' ∉ sanitize_filename s ∧ '\\' ∉ sanitize_filename s)
    ∧ sanitize_filename [] = "video".data
    ∧ sanitize_filename "   ".data = "video".data := by
  refine ⟨?_, by decide, by decide⟩
  intro s
  have key : ∀ x ∈ sanitize_filename s, allowedChar x = true ∨ x ∈ "video".data :=
    fun _ hx => mem_sanitize_allowed hx
  constructor
  · intro hmem
    rcases key _ hmem with h | h
    · exact absurd h (by decide)
    · exact absurd h (by decide)
  · intro hmem
    rcases key _ hmem with h | h
    · exact absurd h (by decide)
    · exact absurd h (by decide)

/-! ## C9 -/

/-- C9: progress events forwarded by `_pytube_progress` carry a
non-negative `bytesReceived` never exceeding the reported total; an unknown
or zero `filesize` yields the sentinel event `(0, 0)`; and the GUI's
percentage computation returns 0 for any `total_bytes ≤ 0` instead of
dividing (zero total is treated as unknown, not complete). -/
theorem progress_event_safety (fs : Option Int) (rem : Int)
    (hrem : 0 ≤ rem) (hfs : ∀ v, fs = some v → 0 ≤ v) :
    0 ≤ (pytube_progress_event fs rem).1
    ∧ (pytube_progress_event fs rem).1 ≤ (pytube_progress_event fs rem).2
    ∧ ((fs = none ∨ fs = some 0) → pytube_progress_event fs rem = (0, 0))
    ∧ (∀ r t : Int, t ≤ 0 → on_progress_percent r t = 0) := by
  have htot : 0 ≤ fs.getD 0 := by
    cases h : fs with
    | none => simp
    | some v => simpa using hfs v h
  refine ⟨?_, ?_, ?_, ?_⟩
  · simp only [pytube_progress_event]
    omega
  · simp only [pytube_progress_event]
    omega
  · rintro (rfl | rfl) <;> simp only [pytube_progress_event, Option.getD] <;>
      (refine Prod.ext ?_ rfl) <;> simp <;> omega
  · intro r t ht
    simp [on_progress_percent, if_pos ht]

/-- Witness for C9 at `filesize = 100`, `bytes_remaining = 40`. -/
theorem progress_event_safety_witness :
    ((0 : Int) ≤ 40) ∧
    (0 ≤ (pytube_progress_event (some 100) 40).1
    ∧ (pytube_progress_event (some 100) 40).1 ≤ (pytube_progress_event (some 100) 40).2
    ∧ (((some 100 : Option Int) = none ∨ (some 100 : Option Int) = some 0) →
        pytube_progress_event (some 100) 40 = (0, 0))
    ∧ (∀ r t : Int, t ≤ 0 → on_progress_percent r t = 0)) :=
  ⟨by decide,
   progress_event_safety (some 100) 40 (by decide)
     (fun v h => by cases h; decide)⟩

/-! ## C6 amended -/

/-- C6 amended: `sanitize_filename` is idempotent on every input whose
cleaned form does not trigger truncation; on inputs that do trigger
truncation the truncated-with-ellipsis output is not a fixed point —
re-applying the function strips the appended dots. -/
theorem sanitize_idempotent_no_truncation :
    (∀ s : List Char, (cleanChars s).length ≤ 180 →
      sanitize_filename (sanitize_filename s) = sanitize_filename s)
    ∧ (∀ s : List Char, 180 < (cleanChars s).length →
      sanitize_filename (sanitize_filename s) ≠ sanitize_filename s) := by
  constructor
  · intro s hlen
    have h1 : ¬ 180 < (cleanChars s).length := by omega
    rw [sanitize_eq_of_short h1]
    split
    · decide
    · rename_i hne
      have hclean : cleanChars (cleanChars s) = cleanChars s :=
        cleanChars_of_clean (fun x hx => mem_sanMap_allowed hx)
      rw [sanitize_eq_of_short (by rw [hclean]; omega), hclean, if_neg hne]
  · intro s hlen
    have hs1 := sanitize_eq_of_long hlen
    have hlen1 : (sanitize_filename s).length = 180 := by
      rw [hs1]
      simp [List.length_take]
      omega
    obtain ⟨hd, tl, hc⟩ : ∃ hd tl, cleanChars s = hd :: tl := by
      cases hcc : cleanChars s with
      | nil => rw [hcc] at hlen; simp at hlen
      | cons a t => exact ⟨a, t, rfl⟩
    have hhd : sepChar hd = false :=
      stripWith_cons_shape (p := sepChar) (l := sanMap s) hc
    have hall : ∀ x ∈ (cleanChars s).take (180 - 3) ++ "...".data,
        allowedChar x = true := by
      intro x hx
      rcases List.mem_append.mp hx with h | h
      · exact mem_cleanChars_allowed (List.take_subset _ _ h)
      · have hdot : x = '.' := by simpa using h
        rw [hdot]; decide
    have hmap := sanMap_eq_self hall
    have htake : (cleanChars s).take (180 - 3) = hd :: tl.take (180 - 4) := by
      rw [hc, show (180 - 3 : Nat) = 176 + 1 from rfl, List.take_succ_cons]
    have hA : (cleanChars s).take (180 - 3) ++ "...".data
        = hd :: (tl.take (180 - 4) ++ "...".data) := by
      rw [htake, List.cons_append]
    have hdrop : List.dropWhile sepChar ((cleanChars s).take (180 - 3) ++ "...".data)
        = (cleanChars s).take (180 - 3) ++ "...".data := by
      rw [hA, List.dropWhile_cons, if_neg (by simp [hhd]), ← hA]
    have hcleanA : cleanChars (sanitize_filename s)
        = ((cleanChars s).take (180 - 3)).rdropWhile sepChar := by
      rw [hs1]
      show stripWith sepChar (sanMap _) = _
      rw [hmap]
      show List.rdropWhile sepChar (List.dropWhile sepChar _) = _
      rw [hdrop]
      exact rdropWhile_append_all (by decide)
    have hlenA : (cleanChars (sanitize_filename s)).length ≤ 177 := by
      rw [hcleanA]
      have hp := (List.rdropWhile_prefix sepChar ((cleanChars s).take (180 - 3))).length_le
      have ht : ((cleanChars s).take (180 - 3)).length ≤ 177 := by
        simp [List.length_take]
      omega
    rw [sanitize_eq_of_short (by omega)]
    intro heq
    by_cases hnil : cleanChars (sanitize_filename s) = []
    · rw [if_pos hnil] at heq
      have := congrArg List.length heq
      rw [hlen1] at this
      simp at this
    · rw [if_neg hnil] at heq
      have := congrArg List.length heq
      rw [hlen1] at this
      omega

set_option maxRecDepth 8192 in
/-- Witness for C6's amended theorem: a short input (idempotent) and a
181-character input (truncation, not a fixed point). -/
theorem sanitize_idempotent_no_truncation_witness :
    ((cleanChars "My*Great:Video?".data).length ≤ 180
      ∧ sanitize_filename (sanitize_filename "My*Great:Video?".data)
          = sanitize_filename "My*Great:Video?".data)
    ∧ (180 < (cleanChars (List.replicate 181 'b')).length
      ∧ sanitize_filename (sanitize_filename (List.replicate 181 'b'))
          ≠ sanitize_filename (List.replicate 181 'b')) :=
  ⟨⟨by decide, sanitize_idempotent_no_truncation.1 _ (by decide)⟩,
   ⟨by decide, sanitize_idempotent_no_truncation.2 _ (by decide)⟩⟩

/-! ## C2 amended -/

theorem is_probable_strip (u : List Char) :
    is_probable_youtube_url (pyStrip u) = is_probable_youtube_url u := by
  unfold is_probable_youtube_url pyStrip
  rw [stripWith_idem]

/-- C2 amended: the syntactic URL check happens only in the GUI's fetch
handler, which rejects invalid strings before any downloader exists and
issues no capability call for them; `load` itself performs no validation —
it issues the backing resolution call for its stripped URL string
unconditionally. -/
theorem url_validation_caller_only (url_input : List Char)
    (cap : Except (List Char) YouTubeData)
    (hbad : is_probable_youtube_url url_input = false) :
    on_fetch_streams url_input cap
      = (.error "Please paste a valid YouTube video URL.".data, [])
    ∧ (load (mkDownloader url_input) cap).2
      = [CapCall.resolve (pyStrip url_input)] := by
  refine ⟨?_, rfl⟩
  simp [on_fetch_streams, is_probable_strip, hbad]

/-- Witness for C2's amended theorem at the string `"not-a-url"`. -/
theorem url_validation_caller_only_witness :
    is_probable_youtube_url "not-a-url".data = false
    ∧ (on_fetch_streams "not-a-url".data (.ok demoData)
        = (.error "Please paste a valid YouTube video URL.".data, [])
      ∧ (load (mkDownloader "not-a-url".data) (.ok demoData)).2
        = [CapCall.resolve (pyStrip "not-a-url".data)]) :=
  ⟨by decide, url_validation_caller_only "not-a-url".data (.ok demoData) (by decide)⟩

/-! ## C5 -/

theorem itag_mem_catalog {yt : YouTubeData} {s : RawStream} (hs : s ∈ yt.streams) :
    s.itag ∈ (catalogOf yt).map StreamInfo.itag := by
  simp only [catalogOf, List.map_append, List.mem_append, List.map_map,
    List.mem_map, Function.comp]
  cases hk : s.kind
  · exact Or.inl ⟨s, by
      simp [sortByKey, List.mem_insertionSort, videoStreams, List.mem_filter, hs, hk], rfl⟩
  · exact Or.inr ⟨s, by
      simp [sortByKey, List.mem_insertionSort, audioStreams, List.mem_filter, hs, hk], rfl⟩

/-- C5: `download` invoked before any successful `load` fails with the
not-loaded `RuntimeError` and issues no capability call (no I/O); invoked
with an itag absent from the current `available_streams` catalog it fails
with the unknown-stream `ValueError` and issues no capability call (no
filesystem write). -/
theorem download_error_paths_no_io (url outdir : List Char) (itag : Nat)
    (d : Downloader) (yt : YouTubeData) (hld : d.yt = some yt)
    (hmiss : itag ∉ (catalogOf yt).map StreamInfo.itag) :
    download { url := url, yt := none } itag outdir
      = (.error (.runtimeError notLoadedMsg), [])
    ∧ download d itag outdir
      = (.error (.valueError (unknownStreamMsg itag)), []) := by
  refine ⟨rfl, ?_⟩
  have hnone : get_by_itag yt.streams itag = none := by
    rw [get_by_itag, List.find?_eq_none]
    intro s hs hbeq
    simp only [beq_iff_eq] at hbeq
    exact hmiss (hbeq ▸ itag_mem_catalog hs)
  simp only [download, hld, hnone]

/-- Witness for C5: a fresh (unloaded) downloader, and the loaded §8 stub
with the absent itag 99. -/
theorem download_error_paths_no_io_witness :
    (demoDownloader.yt = some demoData)
    ∧ (99 ∉ (catalogOf demoData).map StreamInfo.itag)
    ∧ (download { url := "u".data, yt := none } 99 "./out".data
        = (.error (.runtimeError notLoadedMsg), [])
      ∧ download demoDownloader 99 "./out".data
        = (.error (.valueError (unknownStreamMsg 99)), [])) :=
  ⟨rfl, by decide,
   download_error_paths_no_io "u".data "./out".data 99 demoDownloader demoData
     rfl (by decide)⟩

/-! ## C4 -/

theorem keyGE_total (a b : Option Nat) : keyGE a b ∨ keyGE b a := by
  cases a <;> cases b <;> simp [keyGE] <;> omega

theorem keyGE_trans (a b c : Option Nat) (h1 : keyGE a b) (h2 : keyGE b c) :
    keyGE a c := by
  cases a <;> cases b <;> cases c <;> simp_all [keyGE] <;> omega

theorem keyGE_refl (a : Option Nat) : keyGE a a := by
  cases a <;> simp [keyGE]

theorem filter_orderedInsert {α : Type} (r : α → α → Prop) [DecidableRel r]
    (q : α → Bool) (hq : ∀ a b, q a = true → q b = true → r a b)
    (x : α) (m : List α) :
    (m.orderedInsert r x).filter q = (x :: m).filter q := by
  rw [List.orderedInsert_eq_take_drop, List.filter_append]
  by_cases hx : q x
  · have htw : (m.takeWhile fun b => decide ¬ r x b).filter q = [] := by
      rw [List.filter_eq_nil_iff]
      intro a ha hqa
      have hdec := List.mem_takeWhile_imp (p := fun b => decide ¬ r x b) ha
      simp only [decide_eq_true_eq] at hdec
      exact hdec (hq x a hx hqa)
    rw [htw, List.nil_append, List.filter_cons_of_pos hx, List.filter_cons_of_pos hx]
    congr 1
    conv_rhs => rw [← List.takeWhile_append_dropWhile (fun b => decide ¬ r x b) m]
    rw [List.filter_append, htw, List.nil_append]
  · rw [List.filter_cons_of_neg hx, List.filter_cons_of_neg hx]
    conv_rhs => rw [← List.takeWhile_append_dropWhile (fun b => decide ¬ r x b) m]
    rw [List.filter_append]

theorem filter_insertionSort {α : Type} (r : α → α → Prop) [DecidableRel r]
    (q : α → Bool) (hq : ∀ a b, q a = true → q b = true → r a b) :
    ∀ l : List α, (l.insertionSort r).filter q = l.filter q
  | [] => rfl
  | x :: xs => by
    rw [List.insertionSort, filter_orderedInsert r q hq x _]
    by_cases hx : q x
    · rw [List.filter_cons_of_pos hx, List.filter_cons_of_pos hx,
        filter_insertionSort r q hq xs]
    · rw [List.filter_cons_of_neg hx, List.filter_cons_of_neg hx,
        filter_insertionSort r q hq xs]

theorem labelKey_mkVideo (s : RawStream) : labelKey (mkVideoInfo s) = vKey s := by
  simp only [labelKey, mkVideoInfo, vKey]
  cases hr : s.resolution with
  | none => simp only [pyOr]; decide
  | some r =>
    by_cases hre : r = []
    · subst hre
      simp only [pyOr, if_pos rfl]
      decide
    · simp only [pyOr, if_neg hre]

theorem labelKey_mkAudio (s : RawStream) : labelKey (mkAudioInfo s) = aKey s := by
  simp only [labelKey, mkAudioInfo, aKey]
  cases hr : s.abr with
  | none => simp only [pyOr]; decide
  | some r =>
    by_cases hre : r = []
    · subst hre
      simp only [pyOr, if_pos rfl]
      decide
    · simp only [pyOr, if_neg hre]

theorem sortByKey_pairwise (key : RawStream → Option Nat) (l : List RawStream) :
    (sortByKey key l).Pairwise (fun a b => keyGE (key a) (key b)) := by
  unfold sortByKey
  haveI : IsTotal RawStream (fun a b => keyGE (key a) (key b)) :=
    ⟨fun a b => keyGE_total _ _⟩
  haveI : IsTrans RawStream (fun a b => keyGE (key a) (key b)) :=
    ⟨fun a b c => keyGE_trans _ _ _⟩
  exact List.sorted_insertionSort _ _

/-- The ordering contract of the catalog (§4.3): a video-kind block
followed by an audio-kind block, each pairwise sorted by the numeric
quality reading of its display label (descending, unknowns last), and —
for every key value — the equal-quality descriptors are exactly the
matching raw streams in the backing capability's order (stability and
content). -/
def catalogOrderingSpec (yt : YouTubeData) (catalog : List StreamInfo) : Prop :=
  ∃ vs al : List StreamInfo,
    catalog = vs ++ al
    ∧ (∀ i ∈ vs, i.type = "video".data)
    ∧ (∀ i ∈ al, i.type = "audio".data)
    ∧ vs.Pairwise (fun a b => keyGE (labelKey a) (labelKey b))
    ∧ al.Pairwise (fun a b => keyGE (labelKey a) (labelKey b))
    ∧ (∀ k : Option Nat,
        vs.filter (fun i => labelKey i == k)
          = (yt.streams.filter
              (fun s => decide (s.kind = .video) && (vKey s == k))).map mkVideoInfo)
    ∧ (∀ k : Option Nat,
        al.filter (fun i => labelKey i == k)
          = (yt.streams.filter
              (fun s => decide (s.kind = .audio) && (aKey s == k))).map mkAudioInfo)

/-- C4: for every loaded handle, `available_streams` returns the catalog
and that catalog satisfies the §4.3 ordering contract. -/
theorem catalog_ordering (d : Downloader) (yt : YouTubeData)
    (h : d.yt = some yt) :
    available_streams d = .ok (catalogOf yt)
      ∧ catalogOrderingSpec yt (catalogOf yt) := by
  refine ⟨by simp [available_streams, h], ?_⟩
  refine ⟨(sortByKey vKey (videoStreams yt)).map mkVideoInfo,
    (sortByKey aKey (audioStreams yt)).map mkAudioInfo, rfl, ?_, ?_, ?_, ?_, ?_, ?_⟩
  · intro i hi
    obtain ⟨t, -, rfl⟩ := List.mem_map.mp hi
    rfl
  · intro i hi
    obtain ⟨t, -, rfl⟩ := List.mem_map.mp hi
    rfl
  · exact (sortByKey_pairwise vKey _).map _
      (fun a b hab => by rwa [labelKey_mkVideo, labelKey_mkVideo])
  · exact (sortByKey_pairwise aKey _).map _
      (fun a b hab => by rwa [labelKey_mkAudio, labelKey_mkAudio])
  · intro k
    rw [List.filter_map]
    have hcong : ((sortByKey vKey (videoStreams yt)).filter
          ((fun i => labelKey i == k) ∘ mkVideoInfo))
        = (sortByKey vKey (videoStreams yt)).filter (fun s => vKey s == k) :=
      List.filter_congr (fun s _ => by
        simp only [Function.comp, labelKey_mkVideo])
    rw [hcong]
    rw [show (sortByKey vKey (videoStreams yt)).filter (fun s => vKey s == k)
        = (videoStreams yt).filter (fun s => vKey s == k) from
      filter_insertionSort _ _ (fun a b ha hb => by
        simp only [beq_iff_eq] at ha hb
        rw [ha, hb]
        exact keyGE_refl k) _]
    unfold videoStreams
    rw [List.filter_filter]
    exact congrArg _ (List.filter_congr (fun s _ => by rw [Bool.and_comm]))
  · intro k
    rw [List.filter_map]
    have hcong : ((sortByKey aKey (audioStreams yt)).filter
          ((fun i => labelKey i == k) ∘ mkAudioInfo))
        = (sortByKey aKey (audioStreams yt)).filter (fun s => aKey s == k) :=
      List.filter_congr (fun s _ => by
        simp only [Function.comp, labelKey_mkAudio])
    rw [hcong]
    rw [show (sortByKey aKey (audioStreams yt)).filter (fun s => aKey s == k)
        = (audioStreams yt).filter (fun s => aKey s == k) from
      filter_insertionSort _ _ (fun a b ha hb => by
        simp only [beq_iff_eq] at ha hb
        rw [ha, hb]
        exact keyGE_refl k) _]
    unfold audioStreams
    rw [List.filter_filter]
    exact congrArg _ (List.filter_congr (fun s _ => by rw [Bool.and_comm]))

/-- Witness for C4 at the §8 ordering stub (video resolutions
[720p, 1080p, unknown, 480p], audio bitrates [64kbps, 128kbps]). -/
theorem catalog_ordering_witness :
    demo4Downloader.yt = some demo4
    ∧ (available_streams demo4Downloader = .ok (catalogOf demo4)
      ∧ catalogOrderingSpec demo4 (catalogOf demo4)) :=
  ⟨rfl, catalog_ordering demo4Downloader demo4 rfl⟩

/-! ## C7 / C10: the URL matcher against the accepted shape -/

theorem cs_https (r : List Char) : consumeScheme ("https://".data ++ r) = r := rfl

theorem cs_http (r : List Char) : consumeScheme ("http://".data ++ r) = r := rfl

theorem cs_www (r : List Char) :
    consumeScheme ("www.".data ++ r) = "www.".data ++ r := rfl

theorem cs_host1 (r : List Char) :
    consumeScheme ("youtube.com/watch?v=".data ++ r)
      = "youtube.com/watch?v=".data ++ r := rfl

theorem cs_host2 (r : List Char) :
    consumeScheme ("youtu.be/".data ++ r) = "youtu.be/".data ++ r := rfl

theorem cw_www (r : List Char) :
    consumeOpt "www.".data ("www.".data ++ r) = r := rfl

theorem cw_host1 (r : List Char) :
    consumeOpt "www.".data ("youtube.com/watch?v=".data ++ r)
      = "youtube.com/watch?v=".data ++ r := rfl

theorem cw_host2 (r : List Char) :
    consumeOpt "www.".data ("youtu.be/".data ++ r)
      = "youtu.be/".data ++ r := rfl

theorem aw_host1 (r : List Char) :
    afterWww ("youtube.com/watch?v=".data ++ r)
      = decide (6 ≤ (r.takeWhile idChar).length) := rfl

theorem aw_host2 (r : List Char) :
    afterWww ("youtu.be/".data ++ r)
      = decide (6 ≤ (r.takeWhile idChar).length) := rfl

theorem isPre_iff_prefix : ∀ {a b : List Char}, isPre a b = true ↔ a <+: b
  | [], b => by simp [isPre]
  | x :: xs, [] => by simp [isPre]
  | x :: xs, y :: ys => by
    rw [List.cons_prefix_cons, ← isPre_iff_prefix (a := xs) (b := ys)]
    show (x == y && isPre xs ys) = true ↔ _
    rw [Bool.and_eq_true, beq_iff_eq]

theorem afterWww_of_id (host idp rest : List Char)
    (hh : host = "youtube.com/watch?v=".data ∨ host = "youtu.be/".data)
    (hall : ∀ c ∈ idp, idChar c = true) (hlen : 6 ≤ idp.length) :
    afterWww (host ++ (idp ++ rest)) = true := by
  have ht : (idp ++ rest).takeWhile idChar = idp ++ rest.takeWhile idChar :=
    List.takeWhile_append_of_pos hall
  rcases hh with rfl | rfl
  · rw [aw_host1, ht, decide_eq_true_eq, List.length_append]
    omega
  · rw [aw_host2, ht, decide_eq_true_eq, List.length_append]
    omega

theorem matchCore_shape_cases (sch www host idp rest : List Char)
    (hsch : sch = [] ∨ sch = "http://".data ∨ sch = "https://".data)
    (hwww : www = [] ∨ www = "www.".data)
    (hhost : host = "youtube.com/watch?v=".data ∨ host = "youtu.be/".data)
    (hall : ∀ c ∈ idp, idChar c = true) (hlen : 6 ≤ idp.length) :
    matchCore (sch ++ (www ++ (host ++ (idp ++ rest)))) = true := by
  unfold matchCore
  rcases hsch with rfl | rfl | rfl
  · rw [List.nil_append]
    rcases hwww with rfl | rfl
    · rw [List.nil_append]
      rcases hhost with rfl | rfl
      · rw [cs_host1, cw_host1]
        exact afterWww_of_id _ idp rest (Or.inl rfl) hall hlen
      · rw [cs_host2, cw_host2]
        exact afterWww_of_id _ idp rest (Or.inr rfl) hall hlen
    · rw [cs_www, cw_www]
      exact afterWww_of_id _ idp rest hhost hall hlen
  · rw [cs_http]
    rcases hwww with rfl | rfl
    · rw [List.nil_append]
      rcases hhost with rfl | rfl
      · rw [cw_host1]
        exact afterWww_of_id _ idp rest (Or.inl rfl) hall hlen
      · rw [cw_host2]
        exact afterWww_of_id _ idp rest (Or.inr rfl) hall hlen
    · rw [cw_www]
      exact afterWww_of_id _ idp rest hhost hall hlen
  · rw [cs_https]
    rcases hwww with rfl | rfl
    · rw [List.nil_append]
      rcases hhost with rfl | rfl
      · rw [cw_host1]
        exact afterWww_of_id _ idp rest (Or.inl rfl) hall hlen
      · rw [cw_host2]
        exact afterWww_of_id _ idp rest (Or.inr rfl) hall hlen
    · rw [cw_www]
      exact afterWww_of_id _ idp rest hhost hall hlen

theorem mem_triple_cases {a x y z : List Char} (h : a ∈ [x, y, z]) :
    a = x ∨ a = y ∨ a = z := by
  rcases List.mem_cons.mp h with h1 | h1
  · exact Or.inl h1
  · rcases List.mem_cons.mp h1 with h2 | h2
    · exact Or.inr (Or.inl h2)
    · rcases List.mem_cons.mp h2 with h3 | h3
      · exact Or.inr (Or.inr h3)
      · cases h3

theorem mem_pair_cases {a x y : List Char} (h : a ∈ [x, y]) : a = x ∨ a = y := by
  rcases List.mem_cons.mp h with h1 | h1
  · exact Or.inl h1
  · rcases List.mem_cons.mp h1 with h2 | h2
    · exact Or.inr h2
    · cases h2

theorem matchCore_of_shape {l : List Char} (h : urlShape l) : matchCore l = true := by
  obtain ⟨sch, www, host, idp, rest, hsch, hwww, hhost, hall, hlen, rfl⟩ := h
  exact matchCore_shape_cases sch www host idp rest (mem_triple_cases hsch)
    (mem_pair_cases hwww) (mem_pair_cases hhost) hall hlen

theorem consumeScheme_cases (l : List Char) :
    (∃ t, l = "https://".data ++ t) ∨ (∃ t, l = "http://".data ++ t)
    ∨ consumeScheme l = l := by
  by_cases h1 : isPre "https://".data l = true
  · obtain ⟨t, ht⟩ := isPre_iff_prefix.mp h1
    exact Or.inl ⟨t, ht.symm⟩
  · by_cases h2 : isPre "http://".data l = true
    · obtain ⟨t, ht⟩ := isPre_iff_prefix.mp h2
      exact Or.inr (Or.inl ⟨t, ht.symm⟩)
    · refine Or.inr (Or.inr ?_)
      unfold consumeScheme
      rw [if_neg h1, if_neg h2]

theorem consumeOpt_www_cases (l : List Char) :
    (∃ t, l = "www.".data ++ t) ∨ consumeOpt "www.".data l = l := by
  by_cases h : isPre "www.".data l = true
  · obtain ⟨t, ht⟩ := isPre_iff_prefix.mp h
    exact Or.inl ⟨t, ht.symm⟩
  · refine Or.inr ?_
    unfold consumeOpt
    rw [if_neg h]

theorem afterWww_cases {l : List Char} (h : afterWww l = true) :
    ∃ host idp rest,
      (host = "youtube.com/watch?v=".data ∨ host = "youtu.be/".data)
      ∧ (∀ c ∈ idp, idChar c = true) ∧ 6 ≤ idp.length
      ∧ l = host ++ (idp ++ rest) := by
  unfold afterWww at h
  by_cases h1 : isPre "youtube.com/watch?v=".data l = true
  · obtain ⟨t, ht⟩ := isPre_iff_prefix.mp h1
    subst ht
    rw [if_pos h1, List.drop_left' (by decide), decide_eq_true_eq] at h
    refine ⟨_, t.takeWhile idChar, t.dropWhile idChar, Or.inl rfl,
      fun c hc => List.mem_takeWhile_imp hc, h, ?_⟩
    rw [List.takeWhile_append_dropWhile]
  · by_cases h2 : isPre "youtu.be/".data l = true
    · obtain ⟨t, ht⟩ := isPre_iff_prefix.mp h2
      subst ht
      rw [if_neg h1, if_pos h2, List.drop_left' (by decide),
        decide_eq_true_eq] at h
      refine ⟨_, t.takeWhile idChar, t.dropWhile idChar, Or.inr rfl,
        fun c hc => List.mem_takeWhile_imp hc, h, ?_⟩
      rw [List.takeWhile_append_dropWhile]
    · rw [if_neg h1, if_neg h2] at h
      cases h

theorem shape_of_matchCore {l : List Char} (h : matchCore l = true) :
    urlShape l := by
  unfold matchCore at h
  rcases consumeScheme_cases l with ⟨t, rfl⟩ | ⟨t, rfl⟩ | hcs
  · rw [cs_https] at h
    rcases consumeOpt_www_cases t with ⟨u, rfl⟩ | hw
    · rw [cw_www] at h
      obtain ⟨host, idp, rest, hhost, hall, hlen, rfl⟩ := afterWww_cases h
      exact ⟨"https://".data, "www.".data, host, idp, rest, by simp, by simp,
        by rcases hhost with rfl | rfl <;> simp, hall, hlen, rfl⟩
    · rw [hw] at h
      obtain ⟨host, idp, rest, hhost, hall, hlen, rfl⟩ := afterWww_cases h
      exact ⟨"https://".data, [], host, idp, rest, by simp, by simp,
        by rcases hhost with rfl | rfl <;> simp, hall, hlen, rfl⟩
  · rw [cs_http] at h
    rcases consumeOpt_www_cases t with ⟨u, rfl⟩ | hw
    · rw [cw_www] at h
      obtain ⟨host, idp, rest, hhost, hall, hlen, rfl⟩ := afterWww_cases h
      exact ⟨"http://".data, "www.".data, host, idp, rest, by simp, by simp,
        by rcases hhost with rfl | rfl <;> simp, hall, hlen, rfl⟩
    · rw [hw] at h
      obtain ⟨host, idp, rest, hhost, hall, hlen, rfl⟩ := afterWww_cases h
      exact ⟨"http://".data, [], host, idp, rest, by simp, by simp,
        by rcases hhost with rfl | rfl <;> simp, hall, hlen, rfl⟩
  · rw [hcs] at h
    rcases consumeOpt_www_cases l with ⟨u, rfl⟩ | hw
    · rw [cw_www] at h
      obtain ⟨host, idp, rest, hhost, hall, hlen, rfl⟩ := afterWww_cases h
      exact ⟨[], "www.".data, host, idp, rest, by simp, by simp,
        by rcases hhost with rfl | rfl <;> simp, hall, hlen, rfl⟩
    · rw [hw] at h
      obtain ⟨host, idp, rest, hhost, hall, hlen, rfl⟩ := afterWww_cases h
      exact ⟨[], [], host, idp, rest, by simp, by simp,
        by rcases hhost with rfl | rfl <;> simp, hall, hlen, rfl⟩

theorem char_bounds_of_idChar {c : Char} (h : idChar c = true) :
    (65 ≤ c.toNat ∧ c.toNat ≤ 90) ∨ (97 ≤ c.toNat ∧ c.toNat ≤ 122)
    ∨ (48 ≤ c.toNat ∧ c.toNat ≤ 57) ∨ c.toNat = 95 ∨ c.toNat = 45 := by
  unfold idChar at h
  simp only [Bool.or_eq_true, beq_iff_eq] at h
  rcases h with ((hab | hd) | hu) | hh
  · simp only [Char.isAlpha, Bool.or_eq_true] at hab
    rcases hab with hu | hl
    · simp only [Char.isUpper, Bool.and_eq_true, decide_eq_true_eq] at hu
      exact Or.inl ⟨UInt32.le_toNat_of_le (by decide) hu.1,
        UInt32.toNat_le_of_le (by decide) hu.2⟩
    · simp only [Char.isLower, Bool.and_eq_true, decide_eq_true_eq] at hl
      exact Or.inr (Or.inl ⟨UInt32.le_toNat_of_le (by decide) hl.1,
        UInt32.toNat_le_of_le (by decide) hl.2⟩)
  · simp only [Char.isDigit, Bool.and_eq_true, decide_eq_true_eq] at hd
    exact Or.inr (Or.inr (Or.inl ⟨UInt32.le_toNat_of_le (by decide) hd.1,
      UInt32.toNat_le_of_le (by decide) hd.2⟩))
  · subst hu
    exact Or.inr (Or.inr (Or.inr (Or.inl rfl)))
  · subst hh
    exact Or.inr (Or.inr (Or.inr (Or.inr rfl)))

theorem idChar_not_space {c : Char} (h : idChar c = true) :
    pyIsSpace c = false := by
  have hv := char_bounds_of_idChar h
  simp only [pyIsSpace, decide_eq_false_iff_not]
  omega

theorem pyStrip_eq_self {l : List Char} (h : ∀ c ∈ l, pyIsSpace c = false) :
    pyStrip l = l := by
  show List.rdropWhile pyIsSpace (l.dropWhile pyIsSpace) = l
  have h1 : l.dropWhile pyIsSpace = l := by
    cases l with
    | nil => rfl
    | cons a t => rw [List.dropWhile_cons, if_neg (by simp [h a (by simp)])]
  rw [h1, List.rdropWhile_eq_self_iff]
  intro hl
  simp [h _ (List.getLast_mem hl)]

/-- C7: the validator accepts exactly the accepted host/path shape — every
string whose stripped form does not have the shape is rejected; every
string `https://www.youtube.com/watch?v=<6+ id chars>` is accepted;
non-string input is rejected by the `isinstance` guard; a string from an
unrelated domain is rejected. -/
theorem url_validator_characterization :
    (∀ s : List Char, ¬ urlShape (pyStrip s) → is_probable_youtube_url s = false)
    ∧ (∀ idp : List Char, (∀ c ∈ idp, idChar c = true) → 6 ≤ idp.length →
        is_probable_youtube_url ("https://www.youtube.com/watch?v=".data ++ idp)
          = true)
    ∧ is_probable_youtube_url_py PyValue.notAStr = false
    ∧ is_probable_youtube_url "https://example.com/watch?v=dQw4w9WgXcQ".data
        = false := by
  refine ⟨?_, ?_, rfl, by decide⟩
  · intro s hn
    cases hb : is_probable_youtube_url s
    · rfl
    · exact absurd (shape_of_matchCore hb) hn
  · intro idp hall hlen
    have hns : ∀ c ∈ "https://www.youtube.com/watch?v=".data ++ idp,
        pyIsSpace c = false := by
      intro c hc
      rcases List.mem_append.mp hc with h | h
      · exact (by decide :
          ∀ c ∈ "https://www.youtube.com/watch?v=".data, pyIsSpace c = false) c h
      · exact idChar_not_space (hall c h)
    show matchCore (pyStrip _) = true
    rw [pyStrip_eq_self hns]
    apply matchCore_of_shape
    refine ⟨"https://".data, "www.".data, "youtube.com/watch?v=".data, idp, [],
      by simp, by simp, by simp, hall, hlen, ?_⟩
    simp only [List.append_nil, ← List.append_assoc]
    exact congrArg (· ++ idp) (by decide)

/-- Witness for C7: a rejected unrelated-domain string and an accepted
well-formed watch URL. -/
theorem url_validator_characterization_witness :
    (¬ urlShape (pyStrip "https://example.org/v".data)
      ∧ is_probable_youtube_url "https://example.org/v".data = false)
    ∧ ((∀ c ∈ "dQw4w9WgXcQ".data, idChar c = true)
      ∧ 6 ≤ "dQw4w9WgXcQ".data.length
      ∧ is_probable_youtube_url
          ("https://www.youtube.com/watch?v=".data ++ "dQw4w9WgXcQ".data) = true) :=
  ⟨⟨fun hsh => absurd (matchCore_of_shape hsh) (by decide),
    url_validator_characterization.1 _
      (fun hsh => absurd (matchCore_of_shape hsh) (by decide))⟩,
   ⟨by decide, by decide,
    url_validator_characterization.2.1 "dQw4w9WgXcQ".data (by decide) (by decide)⟩⟩

theorem rdropWhile_decomp (p : Char → Bool) (l : List Char) :
    ∃ w, l = l.rdropWhile p ++ w ∧ ∀ c ∈ w, p c = true := by
  refine ⟨(l.reverse.takeWhile p).reverse, ?_, ?_⟩
  · show l = (l.reverse.dropWhile p).reverse ++ (l.reverse.takeWhile p).reverse
    rw [← List.reverse_append, List.takeWhile_append_dropWhile, List.reverse_reverse]
  · intro c hc
    rw [List.mem_reverse] at hc
    exact List.mem_takeWhile_imp hc

theorem strip_decomp (p : Char → Bool) (l : List Char) :
    ∃ w1 w2, l = w1 ++ (stripWith p l ++ w2)
      ∧ (∀ c ∈ w1, p c = true) ∧ (∀ c ∈ w2, p c = true) := by
  obtain ⟨w2, hw2, hw2p⟩ := rdropWhile_decomp p (l.dropWhile p)
  refine ⟨l.takeWhile p, w2, ?_, fun c hc => List.mem_takeWhile_imp hc, hw2p⟩
  conv_lhs => rw [← List.takeWhile_append_dropWhile p l]
  rw [hw2]
  rfl

/-- C10: acceptance by the URL validator is closed under appending —
the regex is anchored only at the start of the stripped string, so any
accepted string stays accepted after arbitrary trailing content. -/
theorem url_acceptance_append_closed (s t : List Char)
    (h : is_probable_youtube_url s = true) :
    is_probable_youtube_url (s ++ t) = true := by
  obtain ⟨sch, www, host, idp, rest, hsch, hwww, hhost, hall, hlen, heq⟩ :=
    shape_of_matchCore (l := pyStrip s) h
  have hidne : idp ≠ [] := by
    intro h0
    rw [h0] at hlen
    simp at hlen
  have hz := List.dropLast_concat_getLast hidne
  have hzid : idChar (idp.getLast hidne) = true := hall _ (List.getLast_mem hidne)
  have hAP : pyStrip s = (sch ++ (www ++ (host ++ idp))) ++ rest := by
    rw [heq]
    simp only [List.append_assoc]
  have hPne : sch ++ (www ++ (host ++ idp)) ≠ [] := by
    rcases mem_pair_cases hhost with rfl | rfl <;> simp
  have hAne : pyStrip s ≠ [] := by
    rw [hAP]
    intro hc
    rcases List.append_eq_nil.mp hc with ⟨h1, -⟩
    exact hPne h1
  obtain ⟨c0, A2, hA2⟩ : ∃ c0 A2, pyStrip s = c0 :: A2 := by
    rcases hAe : pyStrip s with _ | ⟨x, xs⟩
    · exact absurd hAe hAne
    · exact ⟨x, xs, rfl⟩
  have hc0 : pyIsSpace c0 = false :=
    stripWith_cons_shape (p := pyIsSpace) (l := s) hA2
  obtain ⟨w1, w2, hs_decomp, hw1, hw2⟩ := strip_decomp pyIsSpace s
  have hst : s ++ t = w1 ++ (pyStrip s ++ (w2 ++ t)) := by
    conv_lhs => rw [hs_decomp]
    simp only [List.append_assoc]
    rfl
  have hdw : (s ++ t).dropWhile pyIsSpace = pyStrip s ++ (w2 ++ t) := by
    rw [hst, List.dropWhile_append_of_pos hw1, hA2]
    rw [List.cons_append, List.dropWhile_cons, if_neg (by simp [hc0])]
  obtain ⟨w3, hw3eq, hw3⟩ := rdropWhile_decomp pyIsSpace (pyStrip s ++ (w2 ++ t))
  have hstrip : pyStrip (s ++ t)
      = (pyStrip s ++ (w2 ++ t)).rdropWhile pyIsSpace := by
    show List.rdropWhile pyIsSpace ((s ++ t).dropWhile pyIsSpace) = _
    rw [hdw]
  have hLP : pyStrip s ++ (w2 ++ t)
      = (sch ++ (www ++ (host ++ idp))) ++ (rest ++ (w2 ++ t)) := by
    rw [hAP]
    simp only [List.append_assoc]
  have hBpre : (pyStrip s ++ (w2 ++ t)).rdropWhile pyIsSpace
      <+: (sch ++ (www ++ (host ++ idp))) ++ (rest ++ (w2 ++ t)) := by
    rw [← hLP]
    exact List.rdropWhile_prefix _ _
  have hPpre : (sch ++ (www ++ (host ++ idp)))
      <+: (sch ++ (www ++ (host ++ idp))) ++ (rest ++ (w2 ++ t)) :=
    List.prefix_append _ _
  by_cases hlencmp : (sch ++ (www ++ (host ++ idp))).length
      ≤ ((pyStrip s ++ (w2 ++ t)).rdropWhile pyIsSpace).length
  · obtain ⟨X2, hX2⟩ := List.prefix_of_prefix_length_le hPpre hBpre hlencmp
    show matchCore (pyStrip (s ++ t)) = true
    rw [hstrip, ← hX2]
    apply matchCore_of_shape
    exact ⟨sch, www, host, idp, X2, hsch, hwww, hhost, hall, hlen, by
      simp only [List.append_assoc]⟩
  · exfalso
    push_neg at hlencmp
    have hPz : sch ++ (www ++ (host ++ idp))
        = (sch ++ (www ++ (host ++ idp.dropLast))) ++ [idp.getLast hidne] := by
      conv_lhs => rw [← hz]
      simp only [List.append_assoc]
    have hP0len : (sch ++ (www ++ (host ++ idp))).length
        = (sch ++ (www ++ (host ++ idp.dropLast))).length + 1 := by
      rw [hPz, List.length_append]
      rfl
    have hLz : pyStrip s ++ (w2 ++ t)
        = (sch ++ (www ++ (host ++ idp.dropLast)))
          ++ (idp.getLast hidne :: (rest ++ (w2 ++ t))) := by
      rw [hLP, hPz]
      simp only [List.append_assoc, List.singleton_append]
    have hd1 : (pyStrip s ++ (w2 ++ t)).drop
        (sch ++ (www ++ (host ++ idp.dropLast))).length
        = idp.getLast hidne :: (rest ++ (w2 ++ t)) := by
      rw [hLz]
      exact List.drop_left _ _
    obtain ⟨dd, hdd⟩ : ∃ dd, (sch ++ (www ++ (host ++ idp.dropLast))).length
        = ((pyStrip s ++ (w2 ++ t)).rdropWhile pyIsSpace).length + dd :=
      ⟨(sch ++ (www ++ (host ++ idp.dropLast))).length
        - ((pyStrip s ++ (w2 ++ t)).rdropWhile pyIsSpace).length, by omega⟩
    have hd2 : w3.drop dd = idp.getLast hidne :: (rest ++ (w2 ++ t)) := by
      calc w3.drop dd
          = (((pyStrip s ++ (w2 ++ t)).rdropWhile pyIsSpace) ++ w3).drop
              (((pyStrip s ++ (w2 ++ t)).rdropWhile pyIsSpace).length + dd) := by
            rw [← List.drop_drop, List.drop_left]
        _ = (pyStrip s ++ (w2 ++ t)).drop
              (((pyStrip s ++ (w2 ++ t)).rdropWhile pyIsSpace).length + dd) := by
            rw [← hw3eq]
        _ = (pyStrip s ++ (w2 ++ t)).drop
              (sch ++ (www ++ (host ++ idp.dropLast))).length := by
            rw [← hdd]
        _ = idp.getLast hidne :: (rest ++ (w2 ++ t)) := hd1
    have hzmem : idp.getLast hidne ∈ w3 := by
      refine List.drop_subset dd w3 ?_
      rw [hd2]
      exact List.mem_cons_self _ _
    have hsp := hw3 _ hzmem
    rw [idChar_not_space hzid] at hsp
    cases hsp

/-- Witness for C10: an accepted URL stays accepted after appending
trailing garbage including spaces and another domain. -/
theorem url_acceptance_append_closed_witness :
    is_probable_youtube_url "https://youtu.be/abcdef".data = true
    ∧ is_probable_youtube_url
        ("https://youtu.be/abcdef".data ++ " junk http://evil.example".data)
        = true :=
  ⟨by decide,
   url_acceptance_append_closed "https://youtu.be/abcdef".data
     " junk http://evil.example".data (by decide)⟩

end YTSpec
